import Mathlib

/-!
Verification of the array-design core of doatools (src/doatools/model/arrays.py).

The embedding follows the Python source closely:

* a numpy 2-axis ndarray of reals becomes `MatR` (shape plus a total entry
  function; entries outside the shape are irrelevant);
* a perturbation dictionary becomes an insertion-ordered association list
  `PDict` whose values record exactly the observations the source makes of a
  Python value: tuple-ness, length, first component (parameters) and second
  component (known flag);
* Python objects hold references to mutable dictionaries, so dictionaries
  live in an explicit `Heap` and an `ArrayDesignObj` stores the index of its
  perturbations dictionary.  The source never mutates an allocated
  dictionary in place (merges build fresh dictionaries and attribute
  assignment rebinds a reference), so every heap operation is an append;
  frame properties over this heap are therefore meaningful statements about
  aliasing.  Names, strings and location matrices are never mutated in place
  by the source, so they are plain values;
* the steering-matrix computation works over Mathlib complex matrices
  indexed by `Fin M` (elements) and `Fin K` (source directions); the
  external sources collaborator is an abstract `Sources` record.
-/

set_option maxHeartbeats 1000000

namespace DoaTools

/-- A real matrix with explicit shape, mirroring a 2-axis numpy ndarray.
The entry function is total; entries outside the shape are irrelevant. -/
structure MatR where
  rows : ℕ
  cols : ℕ
  entry : ℕ → ℕ → ℝ

/-- A value of a Python perturbation dictionary, as observed by arrays.py:
whether the object is a tuple, its length, its component 0 (the parameter
payload, of type alpha) and its component 1 (the known-in-prior flag). -/
structure PValue (α : Type) where
  tuple : Bool
  length : ℕ
  params : α
  known : Bool

/-- A Python dict from perturbation-kind strings to values, modelled as an
insertion-ordered association list with unique keys. -/
abbrev PDict (α : Type) := List (String × PValue α)

/-- First-match lookup, the observable mapping of a dict. -/
def PDict.lookup {α : Type} (d : PDict α) (k : String) : Option (PValue α) :=
  match d with
  | [] => none
  | (k2, v) :: rest => if k2 = k then some v else PDict.lookup rest k

/-- Python dict merge of a and b (double-star unpacking of a then b): the
entries of a whose keys b does not override, followed by all entries of b;
on a key collision the entry of b wins. -/
def dictMerge {α : Type} (a b : PDict α) : PDict α :=
  (a.filter (fun kv => (PDict.lookup b kv.1).isNone)) ++ b

/-- The store of allocated dictionaries.  An object holds an index into the
heap, which makes dictionary aliasing between objects explicit. -/
abbrev Heap (α : Type) := List (PDict α)

/-- Dereference a dictionary; out-of-range references yield the empty dict
(they never occur along the modelled paths). -/
def Heap.get {α : Type} (h : Heap α) (r : ℕ) : PDict α := h.getD r []

/-- PERTURBATION_TYPES from arrays.py, lines 6 to 11. -/
def PERTURBATION_TYPES : List String :=
  ["location_errors", "gain_errors", "phase_errors", "mutual_coupling"]

/-- ArrayDesign._validate_perturbations, lines 153 to 159.  An unsupported
key raises.  A value raises only when it is BOTH not a tuple AND not of
length 2, because line 157 of the source combines the two tests with
`and` rather than `or`. -/
def validate_perturbations {α : Type} : PDict α → Except String Unit
  | [] => .ok ()
  | (k, v) :: rest =>
    if ¬ (PERTURBATION_TYPES.contains k) then
      .error ("Unsupported perturbation type " ++ k)
    else if ¬ v.tuple ∧ v.length ≠ 2 then
      .error "Perturbation details should be specified by a two-element tuple."
    else validate_perturbations rest

/-- The locations argument of the ArrayDesign constructor: a 1-axis array,
a 2-axis array, or an array with three or more axes (whose contents are
irrelevant because construction rejects it on the axis count alone). -/
inductive LocInput where
  | oneD (m : ℕ) (e : ℕ → ℝ)
  | twoD (m c : ℕ) (e : ℕ → ℕ → ℝ)
  | highD (extra : ℕ)

/-- ndarray.ndim of the constructor input. -/
def LocInput.ndim : LocInput → ℕ
  | .oneD _ _ => 1
  | .twoD _ _ _ => 2
  | .highD extra => 3 + extra

/-- The location normalization of the ArrayDesign constructor, lines 43 to
48: more than two axes is rejected; a 1-axis input is reshaped to an M x 1
column; a 2-axis input with more than 3 columns is rejected. -/
def normalize_locations : LocInput → Except String MatR
  | .oneD m e => .ok ⟨m, 1, fun i _ => e i⟩
  | .twoD m c e =>
    if 3 < c then .error "Array can only be 1D, 2D or 3D." else .ok ⟨m, c, e⟩
  | .highD _ => .error "Expecting an 1D vector or a 2D matrix."

/-- The attribute record of an ArrayDesign object.  locations and name are
plain values (the source never mutates them in place); perturbations is a
reference into the dictionary heap.  The field perturbation (without the
final s) models the stray attribute created by the typo at line 199 of
arrays.py; no code ever reads it. -/
structure ArrayDesignObj where
  locations : MatR
  name : String
  perturbations : ℕ
  perturbation : Option ℕ

/-- ArrayDesign.__init__, lines 15 to 53: normalize and check the location
input, validate the perturbation dictionary, then store.  Storing the
dictionary is modelled as allocating it on the heap. -/
def ArrayDesign.init {α : Type} (locations : LocInput) (name : String)
    (perturbations : PDict α) (h : Heap α) : Except String (Heap α × ArrayDesignObj) :=
  match normalize_locations locations with
  | .error e => .error e
  | .ok locs =>
    match validate_perturbations perturbations with
    | .error e => .error e
    | .ok _ => .ok (h ++ [perturbations], ⟨locs, name, h.length, none⟩)

/-- ArrayDesign.element_locations, line 79 (the returned copy is value-equal
to the stored matrix). -/
def element_locations (a : ArrayDesignObj) : MatR := a.locations

/-- ArrayDesign.ndim, lines 117 to 125.  The stored locations matrix always
has two axes (the constructor reshapes 1-axis input), so the source returns
its column count. -/
def ArrayDesign.ndim (a : ArrayDesignObj) : ℕ := a.locations.cols

/-- ArrayDesign.is_perturbed, lines 111 to 114: whether the perturbations
dictionary is non-empty. -/
def is_perturbed {α : Type} (h : Heap α) (a : ArrayDesignObj) : Bool :=
  decide (0 < (Heap.get h a.perturbations).length)

/-- ArrayDesign._compute_actual_locations, lines 96 to 109: if the error
matrix has no more columns than the nominal locations, copy the nominal
locations and add the errors into the first columns; otherwise copy the
error matrix and add the nominal locations into its first columns. -/
def compute_actual_locations (locs : MatR) (location_errors : MatR) : MatR :=
  if location_errors.cols ≤ locs.cols then
    ⟨locs.rows, locs.cols, fun i j =>
      locs.entry i j + (if j < location_errors.cols then location_errors.entry i j else 0)⟩
  else
    ⟨location_errors.rows, location_errors.cols, fun i j =>
      location_errors.entry i j + (if j < locs.cols then locs.entry i j else 0)⟩

/-- Parameter payloads of the four perturbation kinds for an M-element
array: a location-error matrix, per-element gain or phase vectors, or an
M x M complex coupling matrix. -/
inductive PData (M : ℕ) where
  | locErr (E : MatR)
  | gainErr (g : Fin M → ℝ)
  | phaseErr (p : Fin M → ℝ)
  | coupling (C : Matrix (Fin M) (Fin M) ℂ)

/-- View a payload as a location-error matrix (junk on other payloads,
which never occur where the source reads one). -/
def PData.asMat {M : ℕ} : PData M → MatR
  | .locErr E => E
  | _ => ⟨0, 0, fun _ _ => 0⟩

/-- View a payload as a per-element real vector (junk on other payloads). -/
def PData.asVec {M : ℕ} : PData M → (Fin M → ℝ)
  | .gainErr g => g
  | .phaseErr p => p
  | _ => fun _ => 0

/-- View a payload as a complex coupling matrix (junk on other payloads). -/
def PData.asCMat {M : ℕ} : PData M → Matrix (Fin M) (Fin M) ℂ
  | .coupling C => C
  | _ => 0

/-- ArrayDesign.actual_element_locations, lines 81 to 94. -/
def actual_element_locations {M : ℕ} (h : Heap (PData M)) (a : ArrayDesignObj) : MatR :=
  match PDict.lookup (Heap.get h a.perturbations) "location_errors" with
  | some v => compute_actual_locations a.locations (PData.asMat v.params)
  | none => element_locations a

/-- ArrayDesign.actual_ndim, lines 127 to 133. -/
def actual_ndim {M : ℕ} (h : Heap (PData M)) (a : ArrayDesignObj) : ℕ :=
  match PDict.lookup (Heap.get h a.perturbations) "location_errors" with
  | some v => max (PData.asMat v.params).cols (ArrayDesign.ndim a)
  | none => ArrayDesign.ndim a

/-- ArrayDesign.get_perturbation_free_copy, lines 188 to 201: resolve the
name, shallow-copy the object (the copy shares the perturbations
reference), then assign a fresh empty dictionary to the attribute
perturbation: line 199 of the source writes self._perturbation, without
the final s, so the shared _perturbations reference is left untouched. -/
def get_perturbation_free_copy {α : Type} (h : Heap α) (a : ArrayDesignObj)
    (new_name : Option String) : Heap α × ArrayDesignObj :=
  (h ++ [[]], ⟨a.locations, new_name.getD a.name, a.perturbations, some h.length⟩)

/-- ArrayDesign.get_perturbed_copy, lines 161 to 186: take a perturbation
free copy, merge its perturbations dictionary (which, through the shared
reference, is the dictionary of the receiver) with the argument, validate
the merged dictionary, and on success bind the copy to a freshly allocated
merged dictionary.  The heap is also returned on the error path, so that
frame properties about the receiver are meaningful; the merged dictionary
built before a failed validation is unreachable garbage in Python and is
not modelled as heap-resident. -/
def get_perturbed_copy {α : Type} (h : Heap α) (a : ArrayDesignObj)
    (perturbations : PDict α) (new_name : Option String) :
    Heap α × Except String ArrayDesignObj :=
  let hd := get_perturbation_free_copy h a new_name
  let new_perturbations := dictMerge (Heap.get hd.1 hd.2.perturbations) perturbations
  match validate_perturbations new_perturbations with
  | .error e => (hd.1, .error e)
  | .ok _ =>
    (hd.1 ++ [new_perturbations],
     .ok ⟨hd.2.locations, hd.2.name, hd.1.length, hd.2.perturbation⟩)

/-- The perturbation filter at the start of ArrayDesign.steering_matrix,
lines 236 to 244. -/
def filter_perturbations {α : Type} (d : PDict α) (mode : String) :
    Except String (PDict α) :=
  if mode = "all" then .ok d
  else if mode = "known" then .ok (d.filter (fun kv => kv.2.known))
  else if mode = "none" then .ok []
  else .error "Perturbation can only be all, known, or none."

/-- The external sources collaborator of steering_matrix: produces the
phase-delay matrix for given element locations and wavelength and, on
request, one derivative term per direction component. -/
structure Sources (M K : ℕ) where
  phase_delay_matrix : MatR → ℝ → Matrix (Fin M) (Fin K) ℝ
  derivative_terms : MatR → ℝ → List (Matrix (Fin M) (Fin K) ℝ)

/-- Lines 246 to 249 of steering_matrix: the effective element locations
under the filtered perturbation dictionary. -/
def effective_locations {M : ℕ} (pd : PDict (PData M)) (locs : MatR) : MatR :=
  match PDict.lookup pd "location_errors" with
  | some v => compute_actual_locations locs (PData.asMat v.params)
  | none => locs

/-- Lines 260 to 264 of steering_matrix: when a gain-error entry is
present, scale the steering matrix and every derivative matrix elementwise
by 1 + gain parameters (broadcast over directions). -/
def apply_gain {M K : ℕ} (pd : PDict (PData M))
    (AD : Matrix (Fin M) (Fin K) ℂ × List (Matrix (Fin M) (Fin K) ℂ)) :
    Matrix (Fin M) (Fin K) ℂ × List (Matrix (Fin M) (Fin K) ℂ) :=
  match PDict.lookup pd "gain_errors" with
  | some v =>
    (Matrix.of (fun i k => ((1 + PData.asVec v.params i : ℝ) : ℂ) * AD.1 i k),
     AD.2.map (fun X => Matrix.of (fun i k => ((1 + PData.asVec v.params i : ℝ) : ℂ) * X i k)))
  | none => AD

/-- Lines 265 to 269 of steering_matrix: when a phase-error entry is
present, scale the steering matrix and every derivative matrix elementwise
by the unit phasor of the phase parameters. -/
noncomputable def apply_phase {M K : ℕ} (pd : PDict (PData M))
    (AD : Matrix (Fin M) (Fin K) ℂ × List (Matrix (Fin M) (Fin K) ℂ)) :
    Matrix (Fin M) (Fin K) ℂ × List (Matrix (Fin M) (Fin K) ℂ) :=
  match PDict.lookup pd "phase_errors" with
  | some v =>
    (Matrix.of (fun i k => Complex.exp (Complex.I * (PData.asVec v.params i : ℂ)) * AD.1 i k),
     AD.2.map (fun X =>
       Matrix.of (fun i k => Complex.exp (Complex.I * (PData.asVec v.params i : ℂ)) * X i k)))
  | none => AD

/-- Lines 270 to 273 of steering_matrix: when a mutual-coupling entry is
present, left-multiply the steering matrix and every derivative matrix by
the coupling matrix. -/
noncomputable def apply_coupling {M K : ℕ} (pd : PDict (PData M))
    (AD : Matrix (Fin M) (Fin K) ℂ × List (Matrix (Fin M) (Fin K) ℂ)) :
    Matrix (Fin M) (Fin K) ℂ × List (Matrix (Fin M) (Fin K) ℂ) :=
  match PDict.lookup pd "mutual_coupling" with
  | some v => (PData.asCMat v.params * AD.1, AD.2.map (fun X => PData.asCMat v.params * X))
  | none => AD

/-- Lines 246 to 278 of steering_matrix, after the filter: build the base
steering matrix exp(i phase_delay) at the effective locations (and, when
derivatives are requested, the base derivative matrices A times i times
each derivative term), then apply gain errors, phase errors and mutual
coupling in the order of the source.  When derivatives are not requested
the source returns the matrix alone; this is modelled by pairing it with
the empty list. -/
noncomputable def steering_matrix_core {M K : ℕ} (pd : PDict (PData M)) (locs : MatR)
    (src : Sources M K) (wavelength : ℝ) (compute_derivatives : Bool) :
    Matrix (Fin M) (Fin K) ℂ × List (Matrix (Fin M) (Fin K) ℂ) :=
  apply_coupling pd (apply_phase pd (apply_gain pd
    (Matrix.of (fun i k =>
       Complex.exp (Complex.I *
         (src.phase_delay_matrix (effective_locations pd locs) wavelength i k : ℂ))),
     if compute_derivatives then
       (src.derivative_terms (effective_locations pd locs) wavelength).map
         (fun X => Matrix.of (fun i k =>
           Complex.exp (Complex.I *
             (src.phase_delay_matrix (effective_locations pd locs) wavelength i k : ℂ)) *
           (Complex.I * (X i k : ℂ))))
     else [])))

/-- ArrayDesign.steering_matrix, lines 203 to 278: filter the stored
perturbation dictionary by the mode argument, then run the computation. -/
noncomputable def steering_matrix {M K : ℕ} (h : Heap (PData M)) (a : ArrayDesignObj)
    (src : Sources M K) (wavelength : ℝ) (compute_derivatives : Bool)
    (perturbations : String) :
    Except String (Matrix (Fin M) (Fin K) ℂ × List (Matrix (Fin M) (Fin K) ℂ)) :=
  (filter_perturbations (Heap.get h a.perturbations) perturbations).map
    (fun pd => steering_matrix_core pd a.locations src wavelength compute_derivatives)

/-- A grid-based array design: integer grid indices (an M x 1 column), the
base spacing d0, and the name.  The ArrayDesign superclass constructor is
applied to indices * d0, an M x 1 matrix, on which it always succeeds. -/
structure GridBasedArrayDesign where
  element_indices : List ℤ
  d0 : ℝ
  name : String

/-- The stored nominal locations of a grid-based design: indices times the
base spacing, as an M x 1 matrix. -/
def GridBasedArrayDesign.locations (g : GridBasedArrayDesign) : MatR :=
  ⟨g.element_indices.length, 1, fun i _ => ((g.element_indices.getD i 0 : ℤ) : ℝ) * g.d0⟩

/-- numpy.arange over integers: the integers from a up to, excluding, b. -/
def arange (a b : ℤ) : List ℤ := (List.range (b - a).toNat).map (fun i => a + Int.ofNat i)

/-- Python str.lower, as a characterwise lowering (the mode strings the
source compares against are plain ASCII). -/
def strLower (s : String) : String := ⟨s.data.map Char.toLower⟩

/-- CoPrimeArray.__init__, lines 389 to 427: swap the pair when m exceeds n
(recording the non-fatal warning in the returned flag), reject a pair whose
gcd is not 1, then build the index list for the given mode (lower-cased).
The name is formatted from the original, unswapped arguments. -/
def CoPrimeArray (m n : ℤ) (d0 : ℝ) (mode : String) :
    Except String (GridBasedArrayDesign × Bool) :=
  let nm := "Co-prime (" ++ toString m ++ "," ++ toString n ++ ")"
  let warned := decide (n < m)
  let p := if n < m then (n, m) else (m, n)
  if Int.gcd p.1 p.2 ≠ 1 then
    .error (toString p.1 ++ " and " ++ toString p.2 ++ " are not co-prime.")
  else
    let mode2 := strLower mode
    if mode2 = "2m" then
      .ok (⟨(arange 0 p.2).map (fun i => i * p.1) ++
            (arange 1 (2 * p.1)).map (fun i => i * p.2), d0, nm⟩, warned)
    else if mode2 = "m" then
      .ok (⟨(arange 0 p.2).map (fun i => i * p.1) ++
            (arange 1 p.1).map (fun i => i * p.2), d0, nm⟩, warned)
    else .error ("Unknown mode " ++ mode2)

/-- _MRLA_PRESETS from arrays.py, lines 439 to 460, reproduced verbatim. -/
def MRLA_PRESETS : List (List ℕ) := [
  [0],
  [0, 1],
  [0, 1, 3],
  [0, 1, 4, 6],
  [0, 1, 4, 7, 9],
  [0, 1, 6, 9, 11, 13],
  [0, 1, 8, 11, 13, 15, 17],
  [0, 1, 4, 10, 16, 18, 21, 23],
  [0, 1, 4, 10, 16, 22, 24, 27, 29],
  [0, 1, 4, 10, 16, 22, 28, 30, 33, 35],
  [0, 1, 6, 14, 22, 30, 32, 34, 37, 39, 41],
  [0, 1, 6, 14, 22, 30, 38, 40, 42, 45, 47, 49],
  [0, 1, 6, 14, 22, 30, 38, 46, 48, 50, 53, 55, 57],
  [0, 1, 6, 14, 22, 30, 38, 46, 54, 56, 58, 61, 63, 65],
  [0, 1, 6, 14, 22, 30, 38, 46, 54, 62, 64, 66, 69, 71, 73],
  [0, 1, 8, 18, 28, 38, 48, 58, 68, 70, 72, 74, 77, 79, 81, 83],
  [0, 1, 8, 18, 28, 38, 48, 58, 68, 78, 80, 82, 84, 87, 89, 91, 93],
  [0, 1, 8, 18, 28, 38, 48, 58, 68, 78, 88, 90, 92, 94, 97, 99, 101, 103],
  [0, 1, 8, 18, 28, 38, 48, 58, 68, 78, 88, 98, 100, 102, 104, 107, 109, 111, 113],
  [0, 1, 10, 22, 34, 46, 58, 70, 82, 94, 106, 108, 110, 112, 114, 117, 119, 121, 123, 125]]

/-- MinimumRedundancyLinearArray.__init__, lines 462 to 483: reject n below
1 or at least the preset count (the source comparison is n >= len, so
n = 20 is rejected even though the table has 20 rows); otherwise take row
n - 1 of the preset table as the grid indices. -/
def MinimumRedundancyLinearArray (n : ℤ) (d0 : ℝ) :
    Except String GridBasedArrayDesign :=
  if n < 1 ∨ (MRLA_PRESETS.length : ℤ) ≤ n then
    .error "The MRLA presets only support up to 20 elements."
  else
    .ok ⟨(MRLA_PRESETS.getD (n - 1).toNat []).map Int.ofNat, d0, "MRLA " ++ toString n⟩

/-! Helper lemmas about dictionaries and the heap. -/

theorem PDict.lookup_append {α : Type} (a b : PDict α) (k : String) :
    PDict.lookup (a ++ b) k = (PDict.lookup a k).or (PDict.lookup b k) := by
  induction a with
  | nil => simp [PDict.lookup]
  | cons kv rest ih =>
    obtain ⟨k2, v⟩ := kv
    by_cases hk : k2 = k
    · simp [PDict.lookup, hk]
    · simp [PDict.lookup, hk, ih]

theorem PDict.lookup_filter_isNone {α : Type} (a b : PDict α) (k : String) :
    PDict.lookup (a.filter (fun kv => (PDict.lookup b kv.1).isNone)) k =
      if (PDict.lookup b k).isNone then PDict.lookup a k else none := by
  induction a with
  | nil => simp [PDict.lookup]
  | cons kv rest ih =>
    obtain ⟨k2, v⟩ := kv
    by_cases hk : k2 = k
    · subst hk
      cases hb : PDict.lookup b k2 with
      | some w => simp [List.filter, PDict.lookup, hb, ih]
      | none => simp [List.filter, PDict.lookup, hb]
    · cases hb : PDict.lookup b k2 with
      | some w => simp [List.filter, PDict.lookup, hb, hk, ih]
      | none => simp [List.filter, PDict.lookup, hb, hk, ih]

/-- The lookup semantics of the Python dict merge: the new entries win. -/
theorem dictMerge_lookup {α : Type} (a b : PDict α) (k : String) :
    PDict.lookup (dictMerge a b) k = (PDict.lookup b k).or (PDict.lookup a k) := by
  rw [dictMerge, PDict.lookup_append, PDict.lookup_filter_isNone]
  cases hb : PDict.lookup b k <;> simp [hb]

theorem Heap.get_append {α : Type} (h l : Heap α) (r : ℕ) (hr : r < h.length) :
    Heap.get (h ++ l) r = Heap.get h r := by
  simp [Heap.get, List.getD, List.getElem?_append_left hr]

theorem Heap.get_alloc {α : Type} (h : Heap α) (d : PDict α) :
    Heap.get (h ++ [d]) h.length = d := by
  simp [Heap.get, List.getD, List.getElem?_concat_length]

/-! Claim theorems. -/

/-- Fixtures: a well-formed two-element tuple value, a dictionary holding a
gain-error entry, a heap allocating it, and a 2-element 1-D design whose
perturbations attribute references it. -/
def sampleValue : PValue Unit := ⟨true, 2, (), true⟩

def sampleDict : PDict Unit := [("gain_errors", sampleValue)]

def sampleHeap : Heap Unit := [sampleDict]

def sampleDesign : ArrayDesignObj := ⟨⟨2, 1, fun _ _ => 0⟩, "arr", 0, none⟩

/-- Claim C3: the claim states that get_perturbation_free_copy always
returns a design whose perturbation set is empty, so that is_perturbed is
always false on the copy, with the name defaulting to the receiver name.
The code contradicts its own documentation (the docstring promises a
perturbation-free copy): line 199 assigns the fresh empty dict to the
attribute perturbation, not perturbations, so the shallow copy keeps the
receiver perturbation dictionary and is_perturbed stays true on a
perturbed receiver.  Only the name-defaulting part of the claim holds. -/
theorem perturbation_free_copy_keeps_perturbations :
    is_perturbed (get_perturbation_free_copy sampleHeap sampleDesign none).1
      (get_perturbation_free_copy sampleHeap sampleDesign none).2 = true ∧
    (get_perturbation_free_copy sampleHeap sampleDesign none).2.name = "arr" ∧
    Heap.get (get_perturbation_free_copy sampleHeap sampleDesign none).1
      (get_perturbation_free_copy sampleHeap sampleDesign none).2.perturbations =
      sampleDict := by
  refine ⟨rfl, rfl, rfl⟩

/-- Claim C5: the claim states that MinimumRedundancyLinearArray succeeds
for every n in [1, 20] and fails outside.  The code rejects n with
n >= len(_MRLA_PRESETS), that is n >= 20, so n = 20 fails even though the
preset table has 20 rows and the docstring says up to 20 elements; the
concrete n = 3 scenario of the claim does hold. -/
theorem mrla_evaluation :
    MinimumRedundancyLinearArray 20 1 =
      .error "The MRLA presets only support up to 20 elements." ∧
    MinimumRedundancyLinearArray 0 1 =
      .error "The MRLA presets only support up to 20 elements." ∧
    MinimumRedundancyLinearArray 21 1 =
      .error "The MRLA presets only support up to 20 elements." ∧
    (∃ g, MinimumRedundancyLinearArray 3 1 = .ok g ∧
      g.element_indices = [0, 1, 3] ∧
      g.locations.rows = 3 ∧ g.locations.cols = 1 ∧
      g.locations.entry 0 0 = 0 ∧ g.locations.entry 1 0 = 1 ∧
      g.locations.entry 2 0 = 3) := by
  refine ⟨rfl, rfl, rfl, _, rfl, rfl, rfl, rfl, ?_, ?_, ?_⟩
  · show ((Int.ofNat 0 : ℤ) : ℝ) * 1 = 0
    norm_num
  · show ((Int.ofNat 1 : ℤ) : ℝ) * 1 = 1
    norm_num
  · show ((Int.ofNat 3 : ℤ) : ℝ) * 1 = 3
    norm_num

/-- Claim C8: the claim states that construction fails with
InvalidPerturbation when a perturbation key is unrecognized or a value is
not a 2-element (parameters, bool) structure.  The key check works, but
line 157 combines the two value tests with `and` instead of `or`, so the
value check only fires when the value is both not a tuple and not of
length 2: a 3-element tuple value passes validation and construction
succeeds, contradicting the docstring and the error message of the
source. -/
theorem validate_perturbations_evaluation :
    validate_perturbations ([("gain_errors", ⟨true, 3, (), true⟩)] : PDict Unit) = .ok () ∧
    validate_perturbations ([("gain_errors", sampleValue)] : PDict Unit) = .ok () ∧
    validate_perturbations ([("bogus", sampleValue)] : PDict Unit) =
      .error "Unsupported perturbation type bogus" ∧
    (∃ h2 o, ArrayDesign.init (LocInput.oneD 1 (fun _ => 0)) "x"
      ([("gain_errors", ⟨true, 3, (), true⟩)] : PDict Unit) [] = .ok (h2, o)) := by
  refine ⟨rfl, rfl, rfl, _, _, rfl⟩

/-- Claim C9 counterexample: a 2-axis input with zero columns (for example
numpy.array([[],[]]), of shape (2, 0)) passes both geometry checks, so a
design whose stored locations matrix has second-axis size 0, outside
{1, 2, 3}, is successfully constructed. -/
theorem arrayDesign_zero_column_accepted :
    ∃ h2 o, ArrayDesign.init (LocInput.twoD 2 0 (fun _ _ => 0)) "A"
      ([] : PDict Unit) [] = .ok (h2, o) ∧
      ArrayDesign.ndim o = 0 ∧ o.locations.cols = 0 := by
  exact ⟨_, _, rfl, rfl, rfl⟩

/-- Claim C9 (amended): construction fails when the locations input has
more than 2 axes or more than 3 columns; a 1-axis input is normalized to an
M x 1 column with ndim 1; and every successfully constructed design stores
a 2-axis locations matrix (a MatR) whose second-axis size is at most 3
(size 0 is possible, for a degenerate empty 2-axis input), with ndim equal
to that column count. -/
theorem arrayDesign_geometry_validation {α : Type} (inp : LocInput) (name : String)
    (pert : PDict α) (h : Heap α) :
    (2 < LocInput.ndim inp →
      ArrayDesign.init inp name pert h = .error "Expecting an 1D vector or a 2D matrix.") ∧
    (∀ m c e, inp = LocInput.twoD m c e → 3 < c →
      ArrayDesign.init inp name pert h = .error "Array can only be 1D, 2D or 3D.") ∧
    (∀ m e, inp = LocInput.oneD m e → validate_perturbations pert = .ok () →
      ArrayDesign.init inp name pert h =
        .ok (h ++ [pert], ⟨⟨m, 1, fun i _ => e i⟩, name, h.length, none⟩)) ∧
    (∀ h2 o, ArrayDesign.init inp name pert h = .ok (h2, o) →
      o.locations.cols ≤ 3 ∧ ArrayDesign.ndim o = o.locations.cols) := by
  refine ⟨?_, ?_, ?_, ?_⟩
  · intro hn
    cases inp with
    | oneD m e => exact absurd hn (by simp [LocInput.ndim])
    | twoD m c e => exact absurd hn (by simp [LocInput.ndim])
    | highD extra => rfl
  · intro m c e hinp hc
    subst hinp
    simp [ArrayDesign.init, normalize_locations, hc]
  · intro m e hinp hv
    subst hinp
    simp [ArrayDesign.init, normalize_locations, hv]
  · intro h2 o hok
    cases inp with
    | oneD m e =>
      cases hv : validate_perturbations pert with
      | error e2 => simp [ArrayDesign.init, normalize_locations, hv] at hok
      | ok u =>
        simp [ArrayDesign.init, normalize_locations, hv] at hok
        obtain ⟨-, rfl⟩ := hok
        exact ⟨by norm_num, rfl⟩
    | twoD m c e =>
      by_cases hc : 3 < c
      · simp [ArrayDesign.init, normalize_locations, hc] at hok
      · cases hv : validate_perturbations pert with
        | error e2 => simp [ArrayDesign.init, normalize_locations, hc, hv] at hok
        | ok u =>
          simp [ArrayDesign.init, normalize_locations, hc, hv] at hok
          obtain ⟨-, rfl⟩ := hok
          exact ⟨le_of_not_lt hc, rfl⟩
    | highD extra => simp [ArrayDesign.init, normalize_locations] at hok

/-- Claim C9, concrete check of the amended statement on a 1-axis input. -/
theorem arrayDesign_geometry_validation_check :
    ArrayDesign.init (LocInput.highD 0) "x" ([] : PDict Unit) [] =
      .error "Expecting an 1D vector or a 2D matrix." :=
  (arrayDesign_geometry_validation (LocInput.highD 0) "x" [] []).1 (by decide)

/-- Claim C2: the perturbations argument of steering_matrix selects the
filtered view: the string all keeps every stored perturbation, known keeps
exactly the entries whose known flag is true, none keeps nothing, so that
with none no gain, phase or coupling effect (nor location error) is applied
regardless of the stored perturbations; any other string fails. -/
theorem steering_matrix_filter_modes {α : Type} (d : PDict α) (mode : String) :
    filter_perturbations d "all" = .ok d ∧
    filter_perturbations d "known" = .ok (d.filter (fun kv => kv.2.known)) ∧
    filter_perturbations d "none" = .ok ([] : PDict α) ∧
    (mode ≠ "all" → mode ≠ "known" → mode ≠ "none" →
      filter_perturbations d mode =
        .error "Perturbation can only be all, known, or none.") ∧
    (∀ (M K : ℕ) (h : Heap (PData M)) (a : ArrayDesignObj) (src : Sources M K)
        (wl : ℝ) (cd : Bool),
      steering_matrix h a src wl cd "none" =
        .ok (Matrix.of (fun i k =>
               Complex.exp (Complex.I * (src.phase_delay_matrix a.locations wl i k : ℂ))),
             if cd then
               (src.derivative_terms a.locations wl).map
                 (fun X => Matrix.of (fun i k =>
                   Complex.exp (Complex.I * (src.phase_delay_matrix a.locations wl i k : ℂ)) *
                   (Complex.I * (X i k : ℂ))))
             else [])) := by
  refine ⟨rfl, rfl, rfl, ?_, ?_⟩
  · intro h1 h2 h3
    simp [filter_perturbations, h1, h2, h3]
  · intro M K h a src wl cd
    rfl

/-- Claim C2, concrete check: an unrecognized filter string fails. -/
theorem steering_matrix_filter_modes_check :
    filter_perturbations sampleDict "bogus" =
      .error "Perturbation can only be all, known, or none." :=
  (steering_matrix_filter_modes sampleDict "bogus").2.2.2.1
    (by decide) (by decide) (by decide)

/-- Helper: a call to get_perturbed_copy never changes the dictionary the
receiver references, whether it succeeds or fails (the merge allocates a
fresh dictionary and the copy is rebound to it). -/
theorem get_perturbed_copy_heap_frame {α : Type} (h : Heap α) (a : ArrayDesignObj)
    (newp : PDict α) (nn : Option String) (wf : a.perturbations < h.length) :
    Heap.get (get_perturbed_copy h a newp nn).1 a.perturbations =
      Heap.get h a.perturbations := by
  have hg : Heap.get (h ++ [[]]) a.perturbations = Heap.get h a.perturbations :=
    Heap.get_append h [[]] a.perturbations wf
  have wf2 : a.perturbations < (h ++ [[]]).length := by
    simpa using Nat.lt_succ_of_lt wf
  cases hv : validate_perturbations (dictMerge (Heap.get h a.perturbations) newp) with
  | error e => simp [get_perturbed_copy, get_perturbation_free_copy, hg, hv]
  | ok u =>
    simp only [get_perturbed_copy, get_perturbation_free_copy, hg, hv]
    rw [Heap.get_append _ _ _ wf2, hg]

/-- Helper: get_perturbed_copy succeeds exactly when the merged dictionary
(receiver entries overridden and extended by the new ones) passes the same
validation as at construction. -/
theorem get_perturbed_copy_ok_iff {α : Type} (h : Heap α) (a : ArrayDesignObj)
    (newp : PDict α) (nn : Option String) (wf : a.perturbations < h.length) :
    (∃ d, (get_perturbed_copy h a newp nn).2 = .ok d) ↔
      validate_perturbations (dictMerge (Heap.get h a.perturbations) newp) = .ok () := by
  have hg : Heap.get (h ++ [[]]) a.perturbations = Heap.get h a.perturbations :=
    Heap.get_append h [[]] a.perturbations wf
  cases hv : validate_perturbations (dictMerge (Heap.get h a.perturbations) newp) with
  | error e => simp [get_perturbed_copy, get_perturbation_free_copy, hg, hv]
  | ok u => simp [get_perturbed_copy, get_perturbation_free_copy, hg, hv]

/-- Helper: on success, the returned design has the defaulted name, shares
the nominal locations, and its dictionary maps every key to the merged
view in which the new entries win. -/
theorem get_perturbed_copy_ok_fields {α : Type} (h : Heap α) (a : ArrayDesignObj)
    (newp : PDict α) (nn : Option String) (wf : a.perturbations < h.length) :
    ∀ d, (get_perturbed_copy h a newp nn).2 = .ok d →
      d.name = nn.getD a.name ∧ d.locations = a.locations ∧
      ∀ k, PDict.lookup (Heap.get (get_perturbed_copy h a newp nn).1 d.perturbations) k =
        (PDict.lookup newp k).or (PDict.lookup (Heap.get h a.perturbations) k) := by
  intro d hd
  have hg : Heap.get (h ++ [[]]) a.perturbations = Heap.get h a.perturbations :=
    Heap.get_append h [[]] a.perturbations wf
  cases hv : validate_perturbations (dictMerge (Heap.get h a.perturbations) newp) with
  | error e => simp [get_perturbed_copy, get_perturbation_free_copy, hg, hv] at hd
  | ok u =>
    simp only [get_perturbed_copy, get_perturbation_free_copy, hg, hv, Except.ok.injEq] at hd
    subst hd
    refine ⟨rfl, rfl, ?_⟩
    intro k
    simp only [get_perturbed_copy, get_perturbation_free_copy, hg, hv]
    rw [Heap.get_alloc, dictMerge_lookup]

/-- Claim C6: get_perturbed_copy returns a design whose perturbation
mapping is the receiver mapping overridden and extended by the new entries
(new entries win on key collision), revalidated with the construction
rules; the name defaults to the receiver name; and the receiver is never
mutated: the dictionary it references is unchanged by the call. -/
theorem get_perturbed_copy_merge {α : Type} (h : Heap α) (a : ArrayDesignObj)
    (newp : PDict α) (new_name : Option String) (wf : a.perturbations < h.length) :
    Heap.get (get_perturbed_copy h a newp new_name).1 a.perturbations =
      Heap.get h a.perturbations ∧
    (∀ d, (get_perturbed_copy h a newp new_name).2 = .ok d →
      d.name = new_name.getD a.name ∧ d.locations = a.locations ∧
      ∀ k, PDict.lookup (Heap.get (get_perturbed_copy h a newp new_name).1 d.perturbations) k =
        (PDict.lookup newp k).or (PDict.lookup (Heap.get h a.perturbations) k)) ∧
    ((∃ d, (get_perturbed_copy h a newp new_name).2 = .ok d) ↔
      validate_perturbations (dictMerge (Heap.get h a.perturbations) newp) = .ok ()) :=
  ⟨get_perturbed_copy_heap_frame h a newp new_name wf,
   get_perturbed_copy_ok_fields h a newp new_name wf,
   get_perturbed_copy_ok_iff h a newp new_name wf⟩

/-- Claim C6, concrete check: deriving a perturbed copy with a new phase
entry leaves the receiver dictionary (holding a gain entry) unchanged. -/
theorem get_perturbed_copy_merge_check :
    Heap.get (get_perturbed_copy sampleHeap sampleDesign
        [("phase_errors", sampleValue)] none).1 sampleDesign.perturbations =
      Heap.get sampleHeap sampleDesign.perturbations :=
  (get_perturbed_copy_merge sampleHeap sampleDesign
    [("phase_errors", sampleValue)] none (by decide)).1

/-- Claim C10: when get_perturbed_copy fails (the merged dictionary fails
validation) the call is atomic with respect to the receiver: the
dictionary the receiver references is exactly as before the call (its name
and locations are plain immutable values the call cannot touch), and a
design is returned only when the fully merged dictionary passed
validation, so no partially merged design is ever returned. -/
theorem get_perturbed_copy_atomic {α : Type} (h : Heap α) (a : ArrayDesignObj)
    (newp : PDict α) (new_name : Option String) (wf : a.perturbations < h.length) :
    (∀ e, (get_perturbed_copy h a newp new_name).2 = .error e →
      Heap.get (get_perturbed_copy h a newp new_name).1 a.perturbations =
        Heap.get h a.perturbations) ∧
    (∀ d, (get_perturbed_copy h a newp new_name).2 = .ok d →
      validate_perturbations (dictMerge (Heap.get h a.perturbations) newp) = .ok ()) :=
  ⟨fun _ _ => get_perturbed_copy_heap_frame h a newp new_name wf,
   fun d hd => (get_perturbed_copy_ok_iff h a newp new_name wf).mp ⟨d, hd⟩⟩

/-- Claim C10, concrete check: merging an unsupported kind fails and the
receiver dictionary is untouched. -/
theorem get_perturbed_copy_atomic_check :
    (get_perturbed_copy sampleHeap sampleDesign [("bogus", sampleValue)] none).2 =
      .error "Unsupported perturbation type bogus" ∧
    Heap.get (get_perturbed_copy sampleHeap sampleDesign [("bogus", sampleValue)] none).1
      sampleDesign.perturbations = Heap.get sampleHeap sampleDesign.perturbations :=
  ⟨rfl,
   (get_perturbed_copy_atomic sampleHeap sampleDesign [("bogus", sampleValue)] none
     (by decide)).1 "Unsupported perturbation type bogus" rfl⟩

/-- Claim C4: with a stored location-error matrix of shape M x d2 and
nominal locations of shape M x d, the actual element locations are, when
d2 is at most d, a copy of the nominal locations whose first d2 columns
have the errors added and whose remaining columns are unchanged; when d2
exceeds d, a copy of the error matrix whose first d columns have the
nominal locations added; actual_ndim is max(d, d2); and with no stored
location-error entry the actual element locations equal element_locations
exactly and actual_ndim equals ndim. -/
theorem actual_locations_characterization {M : ℕ} (h : Heap (PData M))
    (a : ArrayDesignObj) :
    (∀ v E, PDict.lookup (Heap.get h a.perturbations) "location_errors" = some v →
      v.params = PData.locErr E →
      actual_ndim h a = max (ArrayDesign.ndim a) E.cols ∧
      (E.cols ≤ a.locations.cols →
        (actual_element_locations h a).rows = a.locations.rows ∧
        (actual_element_locations h a).cols = a.locations.cols ∧
        (∀ i j, j < E.cols →
          (actual_element_locations h a).entry i j = a.locations.entry i j + E.entry i j) ∧
        (∀ i j, E.cols ≤ j →
          (actual_element_locations h a).entry i j = a.locations.entry i j)) ∧
      (a.locations.cols < E.cols →
        (actual_element_locations h a).rows = E.rows ∧
        (actual_element_locations h a).cols = E.cols ∧
        (∀ i j, j < a.locations.cols →
          (actual_element_locations h a).entry i j = E.entry i j + a.locations.entry i j) ∧
        (∀ i j, a.locations.cols ≤ j →
          (actual_element_locations h a).entry i j = E.entry i j))) ∧
    (PDict.lookup (Heap.get h a.perturbations) "location_errors" = none →
      actual_element_locations h a = element_locations a ∧
      actual_ndim h a = ArrayDesign.ndim a) := by
  constructor
  · intro v E hl hp
    refine ⟨?_, ?_, ?_⟩
    · simp [actual_ndim, hl, hp, PData.asMat, Nat.max_comm, ArrayDesign.ndim]
    · intro hle
      simp only [actual_element_locations, hl, hp, PData.asMat,
        compute_actual_locations, if_pos hle]
      refine ⟨trivial, trivial, ?_, ?_⟩
      · intro i j hj
        simp [hj]
      · intro i j hj
        simp [Nat.not_lt.mpr hj]
    · intro hlt
      simp only [actual_element_locations, hl, hp, PData.asMat,
        compute_actual_locations, if_neg (Nat.not_le.mpr hlt)]
      refine ⟨trivial, trivial, ?_, ?_⟩
      · intro i j hj
        simp [hj]
      · intro i j hj
        simp [Nat.not_lt.mpr hj]
  · intro hl
    simp [actual_element_locations, actual_ndim, hl]

/-- Fixtures for the location-error scenario: a 2 x 2 nominal design with a
2 x 1 location-error matrix. -/
def locErrMat : MatR := ⟨2, 1, fun _ _ => 1⟩

def locErrValue : PValue (PData 2) := ⟨true, 2, PData.locErr locErrMat, true⟩

def locErrHeap : Heap (PData 2) := [[("location_errors", locErrValue)]]

def locErrDesign : ArrayDesignObj := ⟨⟨2, 2, fun _ _ => 0⟩, "arr2", 0, none⟩

/-- Claim C4, concrete check: for a 2-column nominal design with a
1-column error matrix the actual dimension stays 2, the shape is kept, and
one perturbed and one unperturbed entry have the stated values. -/
theorem actual_locations_characterization_check :
    actual_ndim locErrHeap locErrDesign = 2 ∧
    (actual_element_locations locErrHeap locErrDesign).cols = 2 ∧
    (actual_element_locations locErrHeap locErrDesign).entry 0 0 =
      locErrDesign.locations.entry 0 0 + locErrMat.entry 0 0 ∧
    (actual_element_locations locErrHeap locErrDesign).entry 0 1 =
      locErrDesign.locations.entry 0 1 := by
  have hmain := (actual_locations_characterization locErrHeap locErrDesign).1
    locErrValue locErrMat rfl rfl
  have hle := hmain.2.1 (by decide)
  exact ⟨hmain.1, hle.2.1, hle.2.2.1 0 0 (by decide), hle.2.2.2 0 1 (by decide)⟩

theorem arange_length (a b : ℤ) : (arange a b).length = (b - a).toNat := by
  unfold arange
  rw [List.length_map, List.length_range]

/-- Claim C7: CoPrimeArray fails when gcd(m, n) is not 1; when m exceeds n
the pair is swapped, recorded by the non-fatal warning flag; mode 2m yields
the concatenation of (0..n-1) times m and (1..2m-1) times n, of length
n + 2m - 1, and mode m yields the concatenation of (0..n-1) times m and
(1..m-1) times n; concretely, the pair (4, 6) fails and the pair (4, 9)
succeeds in mode 2m with 16 elements. -/
theorem coPrimeArray_characterization (m n : ℤ) (d0 : ℝ) (mode : String) :
    (Int.gcd m n ≠ 1 → ∃ e, CoPrimeArray m n d0 mode = .error e) ∧
    (1 ≤ m → m ≤ n → Int.gcd m n = 1 →
      ∃ g, CoPrimeArray m n d0 "2m" = .ok (g, false) ∧
        g.element_indices =
          (arange 0 n).map (fun i => i * m) ++ (arange 1 (2 * m)).map (fun i => i * n) ∧
        (g.element_indices.length : ℤ) = n + 2 * m - 1 ∧ g.d0 = d0) ∧
    (1 ≤ m → m ≤ n → Int.gcd m n = 1 →
      ∃ g, CoPrimeArray m n d0 "m" = .ok (g, false) ∧
        g.element_indices =
          (arange 0 n).map (fun i => i * m) ++ (arange 1 m).map (fun i => i * n)) ∧
    (n < m → Int.gcd m n = 1 →
      ∃ g, CoPrimeArray m n d0 "2m" = .ok (g, true) ∧
        g.element_indices =
          (arange 0 m).map (fun i => i * n) ++ (arange 1 (2 * n)).map (fun i => i * m)) ∧
    (∃ e, CoPrimeArray 4 6 1 "2m" = .error e) ∧
    (∃ g, CoPrimeArray 4 9 1 "2m" = .ok (g, false) ∧ g.element_indices.length = 16) := by
  refine ⟨?_, ?_, ?_, ?_, ?_, ?_⟩
  · intro hg
    by_cases h1 : n < m
    · have h2 : Int.gcd n m ≠ 1 := by rwa [Int.gcd_comm]
      have heq : CoPrimeArray m n d0 mode =
          .error (toString n ++ " and " ++ toString m ++ " are not co-prime.") := by
        simp [CoPrimeArray, h1, h2]
      exact ⟨_, heq⟩
    · have heq : CoPrimeArray m n d0 mode =
          .error (toString m ++ " and " ++ toString n ++ " are not co-prime.") := by
        simp [CoPrimeArray, h1, hg]
      exact ⟨_, heq⟩
  · intro hm hmn hg
    have h1 : ¬ n < m := not_lt.mpr hmn
    have heq : CoPrimeArray m n d0 "2m" =
        .ok (⟨(arange 0 n).map (fun i => i * m) ++ (arange 1 (2 * m)).map (fun i => i * n),
              d0, "Co-prime (" ++ toString m ++ "," ++ toString n ++ ")"⟩, false) := by
      have hLow : strLower "2m" = "2m" := rfl
      simp [CoPrimeArray, h1, hg, hLow]
    refine ⟨_, heq, rfl, ?_, rfl⟩
    simp only [List.length_append, List.length_map, arange_length]
    omega
  · intro hm hmn hg
    have h1 : ¬ n < m := not_lt.mpr hmn
    have heq : CoPrimeArray m n d0 "m" =
        .ok (⟨(arange 0 n).map (fun i => i * m) ++ (arange 1 m).map (fun i => i * n),
              d0, "Co-prime (" ++ toString m ++ "," ++ toString n ++ ")"⟩, false) := by
      have hLow : strLower "m" = "m" := rfl
      have hne : ¬ ("m" : String) = "2m" := by decide
      simp [CoPrimeArray, h1, hg, hLow, hne]
    exact ⟨_, heq, rfl⟩
  · intro h1 hg
    have h2 : Int.gcd n m = 1 := by rwa [Int.gcd_comm]
    have heq : CoPrimeArray m n d0 "2m" =
        .ok (⟨(arange 0 m).map (fun i => i * n) ++ (arange 1 (2 * n)).map (fun i => i * m),
              d0, "Co-prime (" ++ toString m ++ "," ++ toString n ++ ")"⟩, true) := by
      have hLow : strLower "2m" = "2m" := rfl
      simp [CoPrimeArray, h1, h2, hLow]
    exact ⟨_, heq, rfl⟩
  · exact ⟨_, rfl⟩
  · exact ⟨_, rfl, rfl⟩

/-- Claim C7, concrete check of the general mode-2m clause at (4, 9). -/
theorem coPrimeArray_characterization_check :
    ∃ g, CoPrimeArray 4 9 1 "2m" = .ok (g, false) ∧
      g.element_indices =
        (arange 0 9).map (fun i => i * 4) ++ (arange 1 (2 * 4)).map (fun i => i * 9) ∧
      ((g.element_indices.length : ℤ) = 9 + 2 * 4 - 1) ∧ g.d0 = 1 :=
  (coPrimeArray_characterization 4 9 1 "2m").2.1 (by decide) (by decide) (by decide)

/-- The gain coefficient of the spec, as a complex row factor: 1 plus the
gain parameters when a gain-error entry is present in the filtered
dictionary, 1 otherwise. -/
def gain_factorC {M : ℕ} (pd : PDict (PData M)) : Fin M → ℂ :=
  match PDict.lookup pd "gain_errors" with
  | some v => fun i => ((1 + PData.asVec v.params i : ℝ) : ℂ)
  | none => fun _ => 1

/-- The phase coefficient of the spec: exp(i phase parameters) when a
phase-error entry is present, 1 otherwise. -/
noncomputable def phase_factorC {M : ℕ} (pd : PDict (PData M)) : Fin M → ℂ :=
  match PDict.lookup pd "phase_errors" with
  | some v => fun i => Complex.exp (Complex.I * (PData.asVec v.params i : ℂ))
  | none => fun _ => 1

/-- The coupling step of the spec: left-multiplication by the coupling
matrix when a mutual-coupling entry is present, identity otherwise. -/
noncomputable def coupling_applyC {M K : ℕ} (pd : PDict (PData M))
    (A : Matrix (Fin M) (Fin K) ℂ) : Matrix (Fin M) (Fin K) ℂ :=
  match PDict.lookup pd "mutual_coupling" with
  | some v => PData.asCMat v.params * A
  | none => A

theorem apply_gain_eq {M K : ℕ} (pd : PDict (PData M))
    (AD : Matrix (Fin M) (Fin K) ℂ × List (Matrix (Fin M) (Fin K) ℂ)) :
    apply_gain pd AD =
      (Matrix.of (fun i k => gain_factorC pd i * AD.1 i k),
       AD.2.map (fun X => Matrix.of (fun i k => gain_factorC pd i * X i k))) := by
  cases hl : PDict.lookup pd "gain_errors" with
  | some v => simp [apply_gain, gain_factorC, hl]
  | none =>
    have hof : ∀ X : Matrix (Fin M) (Fin K) ℂ,
        (Matrix.of (fun i k => X i k)) = X := fun _ => rfl
    simp [apply_gain, gain_factorC, hl, hof]

theorem apply_phase_eq {M K : ℕ} (pd : PDict (PData M))
    (AD : Matrix (Fin M) (Fin K) ℂ × List (Matrix (Fin M) (Fin K) ℂ)) :
    apply_phase pd AD =
      (Matrix.of (fun i k => phase_factorC pd i * AD.1 i k),
       AD.2.map (fun X => Matrix.of (fun i k => phase_factorC pd i * X i k))) := by
  cases hl : PDict.lookup pd "phase_errors" with
  | some v => simp [apply_phase, phase_factorC, hl]
  | none =>
    have hof : ∀ X : Matrix (Fin M) (Fin K) ℂ,
        (Matrix.of (fun i k => X i k)) = X := fun _ => rfl
    simp [apply_phase, phase_factorC, hl, hof]

theorem apply_coupling_eq {M K : ℕ} (pd : PDict (PData M))
    (AD : Matrix (Fin M) (Fin K) ℂ × List (Matrix (Fin M) (Fin K) ℂ)) :
    apply_coupling pd AD =
      (coupling_applyC pd AD.1, AD.2.map (fun X => coupling_applyC pd X)) := by
  cases hl : PDict.lookup pd "mutual_coupling" with
  | some v => simp [apply_coupling, coupling_applyC, hl]
  | none => simp [apply_coupling, coupling_applyC, hl]

/-- Helper: the steering computation composes to a closed form.  Every
entry of the output matrix is the gain coefficient times the phase
coefficient times exp(i phase delay) at the effective locations, with the
coupling multiplication applied last, outside the scalings; every
derivative matrix is the same with the extra i-times-derivative-term
factor of the base derivative. -/
theorem steering_matrix_core_closed {M K : ℕ} (pd : PDict (PData M)) (locs : MatR)
    (src : Sources M K) (wl : ℝ) (cd : Bool) :
    steering_matrix_core pd locs src wl cd =
      (coupling_applyC pd (Matrix.of (fun i k =>
         gain_factorC pd i * phase_factorC pd i *
         Complex.exp (Complex.I *
           (src.phase_delay_matrix (effective_locations pd locs) wl i k : ℂ)))),
       if cd then
         (src.derivative_terms (effective_locations pd locs) wl).map
           (fun X => coupling_applyC pd (Matrix.of (fun i k =>
             gain_factorC pd i * phase_factorC pd i *
             (Complex.exp (Complex.I *
                (src.phase_delay_matrix (effective_locations pd locs) wl i k : ℂ)) *
              (Complex.I * (X i k : ℂ))))))
       else []) := by
  unfold steering_matrix_core
  rw [apply_gain_eq, apply_phase_eq, apply_coupling_eq]
  cases cd with
  | false =>
    simp only [Bool.false_eq_true, if_false, List.map_nil, Prod.mk.injEq]
    refine ⟨congrArg _ ?_, trivial⟩
    ext i k
    simp only [Matrix.of_apply]
    ring
  | true =>
    simp only [if_true, List.map_map, Prod.mk.injEq]
    constructor
    · refine congrArg _ ?_
      ext i k
      simp only [Matrix.of_apply]
      ring
    · refine List.map_congr_left ?_
      intro X hX
      simp only [Function.comp_apply]
      refine congrArg _ ?_
      ext i k
      simp only [Matrix.of_apply]
      ring

/-- Claim C1: steering_matrix builds the base matrix exp(i phase_delay) at
the effective element locations determined by the filtered perturbation
dictionary, multiplies it elementwise by the gain coefficient
1 + gain_params when a gain-error entry is present, then by the phase
coefficient exp(i phase_params) when a phase-error entry is present, then
left-multiplies by the coupling matrix when a mutual-coupling entry is
present, coupling last; with compute_derivatives, each derivative starts
from A times (i times the derivative term) and receives the same gain
scaling, phase scaling and coupling multiplication, and the result carries
the derivative list next to A (empty when derivatives are off, since the
source then returns A alone). -/
theorem steering_matrix_composition {M K : ℕ} (h : Heap (PData M)) (a : ArrayDesignObj)
    (src : Sources M K) (wl : ℝ) (cd : Bool) (mode : String) (pd : PDict (PData M))
    (hf : filter_perturbations (Heap.get h a.perturbations) mode = .ok pd) :
    steering_matrix h a src wl cd mode =
      .ok (coupling_applyC pd (Matrix.of (fun i k =>
             gain_factorC pd i * phase_factorC pd i *
             Complex.exp (Complex.I *
               (src.phase_delay_matrix (effective_locations pd a.locations) wl i k : ℂ)))),
           if cd then
             (src.derivative_terms (effective_locations pd a.locations) wl).map
               (fun X => coupling_applyC pd (Matrix.of (fun i k =>
                 gain_factorC pd i * phase_factorC pd i *
                 (Complex.exp (Complex.I *
                    (src.phase_delay_matrix (effective_locations pd a.locations) wl i k : ℂ)) *
                  (Complex.I * (X i k : ℂ))))))
           else []) := by
  unfold steering_matrix
  rw [hf]
  simp only [Except.map]
  rw [steering_matrix_core_closed]

/-- Fixtures for the steering-matrix scenario: a trivial sources
collaborator and an unperturbed one-element design. -/
def unitSources : Sources 1 1 := ⟨fun _ _ => 0, fun _ _ => []⟩

def emptyHeap1 : Heap (PData 1) := [[]]

def emptyPD1 : PDict (PData 1) := []

def plainDesign : ArrayDesignObj := ⟨⟨1, 1, fun _ _ => 0⟩, "p", 0, none⟩

/-- Claim C1, concrete check on an unperturbed design with the trivial
collaborator, mode all and no derivatives. -/
theorem steering_matrix_composition_check :
    steering_matrix emptyHeap1 plainDesign unitSources 1 false "all" =
      .ok (coupling_applyC emptyPD1 (Matrix.of (fun i k =>
             gain_factorC emptyPD1 i * phase_factorC emptyPD1 i *
             Complex.exp (Complex.I *
               (unitSources.phase_delay_matrix
                 (effective_locations emptyPD1 plainDesign.locations) 1 i k : ℂ)))),
           []) :=
  steering_matrix_composition emptyHeap1 plainDesign unitSources 1 false "all" emptyPD1 rfl

end DoaTools
